import Mathlib

/-!
Verification of the failed-download recovery subsystem of the fish-master
repository (src/failed.py, with src/download.py as collaborator).

The Python code is shallowly embedded:
* pandas cell values become `Value` (a string, or NaN for a missing cell);
* a DataFrame row becomes `Row`, whose fields are `Option Value`
  (`none` models a column that is absent from the frame: accessing it with
  `row["col"]` raises `KeyError`, while `row.get("col", d)` returns `d`);
* a CSV read with the callable `usecols` filter becomes `Frame` (which
  columns survived, plus the raw cell triples);
* `pd.concat` becomes `concatFrames` (a column present in some frame is
  NaN-filled in rows coming from frames that lack it);
* the network is an oracle `Nat → AttemptSpec` giving the outcome of each
  numbered attempt of `requests.get` (success with a body, a timeout, a
  failure before the destination is opened, or a failure after part of the
  body was streamed to the destination file);
* the destination directory is an association list from filename to content;
* `re.findall` on the pattern `https?://[^\s]+\.(?:jpe?g|png)` is embedded
  with Python's leftmost-match, greedy-with-backtracking semantics:
  at a match start the quantifier `[^\s]+` takes the longest extent that
  still lets `\.(?:jpe?g|png)` match, scanning resumes after the match.
-/

/-! ## Characters: Python `\s`, `\w` (ASCII fragment) -/

def isSpace (c : Char) : Bool :=
  c == ' ' || c == '\t' || c == '\n' || c == '\r' || c == '\x0b' || c == '\x0c'

def notSpace (c : Char) : Bool := !(isSpace c)

def isWordChar (c : Char) : Bool := c.isAlphanum || c == '_'

/-! ## Values, rows, frames -/

inductive Value where
  | nan
  | str (s : String)
deriving DecidableEq

/-- `str(x)` for a cell value: Python renders the float NaN as `"nan"`. -/
def pyStr : Value → String
  | Value.nan => "nan"
  | Value.str s => s

structure Row where
  sci : Option Value
  img : Option Value
  url : Option Value
deriving DecidableEq

/-- One loaded CSV after `pd.read_csv(path, usecols=lambda c: c in NEEDED_COLS)`:
the callable filter keeps only the needed columns and, unlike a list-valued
`usecols`, raises no error when one of them is absent from the file. -/
structure Frame where
  hasSci : Bool
  hasImg : Bool
  hasUrl : Bool
  rows : List (Value × Value × Value)
deriving DecidableEq

/-! ## failed.py constants -/

def RETRY_LIMIT : Nat := 5
def INITIAL_BACKOFF : Nat := 3
def TIMEOUT : Nat := 10

/-! ## clean_directory_name -/

def dropWhileSpace (l : List Char) : List Char := l.dropWhile isSpace

/-- Python `str.strip()`. -/
def stripWs (l : List Char) : List Char :=
  ((l.dropWhile isSpace).reverse.dropWhile isSpace).reverse

/-- `re.sub(r"\s+", "_", ·)`: every maximal whitespace run becomes one `_`. -/
def collapseWs : Bool → List Char → List Char
  | _, [] => []
  | prevSpace, c :: rest =>
    if isSpace c then
      if prevSpace then collapseWs true rest
      else '_' :: collapseWs true rest
    else c :: collapseWs false rest

/-- failed.py `clean_directory_name` (identical in download.py): NaN maps to
`"unknown"`; otherwise lowercase, strip, collapse whitespace to `_`, delete
every character outside `[^\w_-]`'s complement. -/
def clean_directory_name : Value → String
  | Value.nan => "unknown"
  | Value.str s =>
    String.mk (((collapseWs false (stripWs (s.data.map Char.toLower)))).filter
      (fun c => isWordChar c || c == '-'))

/-! ## generate_filename -/

/-- Text after the last `/` of a string (Python `s.split("/")[-1]`). -/
def lastAfterSlash (s : String) : List Char :=
  s.data.foldl (fun acc c => if c == '/' then [] else acc ++ [c]) []

/-- `re.sub(r"\W+", "", ·)`: keep only word characters. -/
def stripNonWord (l : List Char) : List Char := l.filter isWordChar

/-- `str(row.get("url", ""))`: default `""` when the column is absent,
`"nan"` when the cell is NaN. -/
def urlFieldStr (row : Row) : String :=
  match row.url with
  | none => ""
  | some v => pyStr v

/-- failed.py `generate_filename`. `row["scientific_name"]` raises `KeyError`
when the column is absent; the observation-id fragment never raises, it
degrades to `""` when the stripped last path segment is empty. -/
def generate_filename (row : Row) (default_idx : Nat) : Except String String :=
  match row.sci with
  | none => Except.error "KeyError: scientific_name"
  | some v =>
    let clean_name := clean_directory_name v
    let obs_id := stripNonWord (lastAfterSlash (urlFieldStr row))
    let obs_id_part := if obs_id.isEmpty then "" else "_" ++ String.mk obs_id
    Except.ok (clean_name ++ obs_id_part ++ "_" ++ toString default_idx ++ ".jpg")

/-! ## download_with_retries -/

/-- Outcome of one numbered attempt of `requests.get` + streaming write. -/
inductive AttemptSpec where
  | ok (content : String)
  | timeout
  | failNet
  | failWrite (written : String)
deriving DecidableEq

def AttemptSpec.isOk : AttemptSpec → Bool
  | AttemptSpec.ok _ => true
  | _ => false

structure FetchTrace where
  ok : Bool
  numAttempts : Nat
  timeouts : List Nat
  sleeps : List Nat
  terminalErrors : Nat
  file : Option String
deriving DecidableEq

/-- The retry loop of failed.py `download_with_retries`: the fuel is the
number of attempts still allowed; after a failed attempt that is not the
last, sleep `backoff` and double it; after the last failure log one terminal
error.  The destination file is written during an attempt that opened it;
nothing ever removes it. -/
def dwrGo (aspec : Nat → AttemptSpec) : Nat → Nat → Option String → Nat → FetchTrace
  | _, _, file, 0 => ⟨false, 0, [], [], 1, file⟩
  | attempt, backoff, file, Nat.succ fuel =>
    match aspec attempt with
    | AttemptSpec.ok c => ⟨true, 1, [TIMEOUT], [], 0, some c⟩
    | r =>
      let file1 : Option String :=
        match r with
        | AttemptSpec.failWrite w => some w
        | _ => file
      if fuel = 0 then ⟨false, 1, [TIMEOUT], [], 1, file1⟩
      else
        let t := dwrGo aspec (attempt + 1) (backoff * 2) file1 fuel
        ⟨t.ok, t.numAttempts + 1, TIMEOUT :: t.timeouts, backoff :: t.sleeps,
          t.terminalErrors, t.file⟩

def download_with_retries (aspec : Nat → AttemptSpec) (file : Option String) : FetchTrace :=
  dwrGo aspec 1 INITIAL_BACKOFF file RETRY_LIMIT

/-- The sleep sequence of a run of `fuel` failing attempts starting from
backoff `b`: one sleep between consecutive attempts, none after the last. -/
def sleepsOf (b : Nat) : Nat → List Nat
  | 0 => []
  | 1 => []
  | Nat.succ (Nat.succ n) => b :: sleepsOf (b * 2) (Nat.succ n)

/-- download.py `download_image`: a single attempt; on any exception the
partially written (or pre-existing) destination file is removed. -/
def download_image (aspec : AttemptSpec) (_file : Option String) : Bool × Option String :=
  match aspec with
  | AttemptSpec.ok c => (true, some c)
  | _ => (false, none)

/-! ## Destination directory -/

def fsGet (fs : List (String × String)) (name : String) : Option String :=
  match fs with
  | [] => none
  | (k, v) :: rest => if k == name then some v else fsGet rest name

def fsSet (fs : List (String × String)) (name content : String) : List (String × String) :=
  match fs with
  | [] => [(name, content)]
  | (k, v) :: rest =>
    if k == name then (name, content) :: rest else (k, v) :: fsSet rest name content

/-! ## Correlator: concat and subset -/

def concatCell (has anyHas : Bool) (v : Value) : Option Value :=
  if has then some v else if anyHas then some Value.nan else none

/-- `pd.concat(frames, ignore_index=True)` after per-frame column subsetting:
frames stack in order, row order preserved; a needed column present in some
frame but not in another is NaN-filled in the latter's rows; a column present
in no frame is absent from the result. -/
def concatFrames (frames : List Frame) : List Row :=
  let aS := frames.any (fun f => f.hasSci)
  let aI := frames.any (fun f => f.hasImg)
  let aU := frames.any (fun f => f.hasUrl)
  (frames.map (fun f => f.rows.map (fun t =>
    Row.mk (concatCell f.hasSci aS t.1) (concatCell f.hasImg aI t.2.1)
      (concatCell f.hasUrl aU t.2.2)))).flatten

def enumFrom (s : Nat) : List Row → List (Nat × Row)
  | [] => []
  | r :: rest => (s, r) :: enumFrom (s + 1) rest

/-- `data["image_url"].isin(failed_urls)` for one row: NaN is in no set of
strings. -/
def rowMatches (failed : List String) (row : Row) : Bool :=
  match row.img with
  | some (Value.str u) => failed.contains u
  | _ => false

def subsetOf (frames : List Frame) (failed : List String) : List (Nat × Row) :=
  (enumFrom 0 (concatFrames frames)).filter (fun p => rowMatches failed p.2)

def imgStr (row : Row) : String :=
  match row.img with
  | some (Value.str u) => u
  | _ => ""

/-! ## Batch orchestrator (failed.py main) -/

structure RunState where
  success : Nat
  error : Nat
  fetched : List String
  fs : List (String × String)
  aborted : Option String
deriving DecidableEq

/-- One non-skipped record of the loop in failed.py `main`: fetch with
retries, record the written file, tally the outcome. -/
def processRecord (fetchSpec : String → Nat → AttemptSpec) (st : RunState)
    (row : Row) (filename : String) : RunState :=
  let u := imgStr row
  let tr := download_with_retries (fetchSpec u) (fsGet st.fs filename)
  let newFs :=
    match tr.file with
    | some c => fsSet st.fs filename c
    | none => st.fs
  if tr.ok then
    { st with success := st.success + 1, fetched := st.fetched ++ [u], fs := newFs }
  else
    { st with error := st.error + 1, fetched := st.fetched ++ [u], fs := newFs }

/-- The retry loop of failed.py `main`: per correlated row, generate the
filename (an uncaught `KeyError` aborts the run), skip when the destination
exists, otherwise fetch with retries and tally the outcome. -/
def mainLoop (fetchSpec : String → Nat → AttemptSpec) :
    List (Nat × Row) → RunState → RunState
  | [], st => st
  | (idx, row) :: rest, st =>
    match generate_filename row idx with
    | Except.error e => { st with aborted := some e }
    | Except.ok filename =>
      if (fsGet st.fs filename).isSome then mainLoop fetchSpec rest st
      else mainLoop fetchSpec rest (processRecord fetchSpec st row filename)

/-- failed.py `main` after log extraction: empty failed set returns early;
`data["image_url"]` raises `KeyError` when no source contributed the column;
empty correlated subset returns early; otherwise the loop runs. -/
def mainRun (failed : List String) (frames : List Frame)
    (fs0 : List (String × String)) (fetchSpec : String → Nat → AttemptSpec) : RunState :=
  if failed.isEmpty then ⟨0, 0, [], fs0, none⟩
  else if !(frames.any (fun f => f.hasImg)) then ⟨0, 0, [], fs0, some "KeyError: image_url"⟩
  else
    let subset := subsetOf frames failed
    if subset.isEmpty then ⟨0, 0, [], fs0, none⟩
    else mainLoop fetchSpec subset ⟨0, 0, [], fs0, none⟩

/-! ## extract_urls: the regex `https?://[^\s]+\.(?:jpe?g|png)` -/

def listStartsWith : List Char → List Char → Bool
  | [], _ => true
  | _ :: _, [] => false
  | p :: ps, c :: cs => p == c && listStartsWith ps cs

def extJpeg : List Char := ['j', 'p', 'e', 'g']
def extJpg : List Char := ['j', 'p', 'g']
def extPng : List Char := ['p', 'n', 'g']
def httpsScheme : List Char := ['h', 't', 't', 'p', 's', ':', '/', '/']
def httpScheme : List Char := ['h', 't', 't', 'p', ':', '/', '/']

/-- `\.(?:jpe?g|png)` at the current position: number of characters it
consumes (dot included).  At most one alternative can apply, so the regex
alternation order does not matter. -/
def tryExt (l : List Char) : Option Nat :=
  match l with
  | [] => none
  | c :: rest =>
    if c == '.' then
      if listStartsWith extJpeg rest then some 5
      else if listStartsWith extJpg rest then some 4
      else if listStartsWith extPng rest then some 4
      else none
    else none

/-- Backtracking search for `[^\s]+\.(?:jpe?g|png)`: try the split with `n`
characters for `[^\s]+` from the given `n` downward (the quantifier is
greedy), returning the total consumed length on the first success. -/
def findTail (l : List Char) : Nat → Option Nat
  | 0 => none
  | Nat.succ n =>
    match tryExt (l.drop (Nat.succ n)) with
    | some k => some (Nat.succ n + k)
    | none => findTail l n

/-- Match `[^\s]+\.(?:jpe?g|png)` at the current position; `[^\s]+` can
reach at most the length of the non-whitespace run. -/
def matchTail (l : List Char) : Option Nat :=
  findTail l ((l.takeWhile notSpace).length)

/-- Match the whole pattern at the current position, returning the match
length.  `https?` is greedy on `s?`; since `https://` and `http://` cannot
both be prefixes of the same text, trying the `s` form first is exact. -/
def matchAt (l : List Char) : Option Nat :=
  if listStartsWith httpsScheme l then (matchTail (l.drop 8)).map (fun n => n + 8)
  else if listStartsWith httpScheme l then (matchTail (l.drop 7)).map (fun n => n + 7)
  else none

/-- `re.findall` scan: at each position try a match; on success emit it and
resume after it, otherwise advance one character.  The fuel (one unit per
step, each step consumes at least one character) makes the recursion
structural. -/
def scanAux : Nat → List Char → List String
  | 0, _ => []
  | Nat.succ _, [] => []
  | Nat.succ fuel, c :: rest =>
    match matchAt (c :: rest) with
    | some n => String.mk ((c :: rest).take n) :: scanAux fuel ((c :: rest).drop n)
    | none => scanAux fuel rest

def findall (line : String) : List String :=
  scanAux (line.data.length + 1) line.data

/-- `set.update`: append the elements not already present, keeping the set as
a duplicate-free list. -/
def insertAll (acc : List String) (us : List String) : List String :=
  us.foldl (fun a v => if v ∈ a then a else a ++ [v]) acc

/-- failed.py `extract_urls`, over the lines of the error file. -/
def extract_urls (lines : List String) : List String :=
  lines.foldl (fun acc line => insertAll acc (findall line)) []

/-! ## List helper lemmas -/

theorem listStartsWith_append (p t : List Char) : listStartsWith p (p ++ t) = true := by
  induction p with
  | nil => rfl
  | cons c cs ih => simp [listStartsWith, ih]

theorem dropAppendLen (a b : List Char) (n : Nat) :
    (a ++ b).drop (a.length + n) = b.drop n := by
  induction a with
  | nil => simp
  | cons c cs ih =>
    have h1 : (c :: cs).length + n = (cs.length + n) + 1 := by simp; omega
    rw [h1, List.cons_append, List.drop_succ_cons, ih]

theorem takeAppendLen (a b : List Char) (n : Nat) :
    (a ++ b).take (a.length + n) = a ++ b.take n := by
  induction a with
  | nil => simp
  | cons c cs ih =>
    have h1 : (c :: cs).length + n = (cs.length + n) + 1 := by simp; omega
    rw [h1, List.cons_append, List.take_succ_cons, ih, List.cons_append]

theorem getAppendLen (a b : List Char) (n : Nat) : (a ++ b)[a.length + n]? = b[n]? := by
  induction a with
  | nil => simp
  | cons c cs ih =>
    have h1 : (c :: cs).length + n = (cs.length + n) + 1 := by simp; omega
    rw [h1, List.cons_append, List.getElem?_cons_succ, ih]

theorem getAppendLt (a b : List Char) (n : Nat) (h : n < a.length) :
    (a ++ b)[n]? = a[n]? := by
  induction a generalizing n with
  | nil => simp at h
  | cons c cs ih =>
    cases n with
    | zero => simp
    | succ m =>
      rw [List.cons_append, List.getElem?_cons_succ, List.getElem?_cons_succ]
      exact ih m (by simp at h; omega)

theorem headDrop (l : List Char) (n : Nat) : (l.drop n).head? = l[n]? := by
  induction l generalizing n with
  | nil => simp
  | cons c cs ih =>
    cases n with
    | zero => simp
    | succ m => rw [List.drop_succ_cons, List.getElem?_cons_succ]; exact ih m

theorem takeWhileAppend (p : Char → Bool) (a b : List Char) (h : ∀ c ∈ a, p c = true) :
    (a ++ b).takeWhile p = a ++ b.takeWhile p := by
  induction a with
  | nil => simp
  | cons c cs ih =>
    have hc : p c = true := h c (by simp)
    rw [List.cons_append, List.takeWhile_cons_of_pos hc,
      ih (fun d hd => h d (by simp [hd]))]
    rfl

theorem dropWhileHead (p : Char → Bool) (l : List Char) (c : Char) (cs : List Char)
    (h : l.dropWhile p = c :: cs) : p c = false := by
  induction l with
  | nil => simp at h
  | cons a rest ih =>
    by_cases ha : p a = true
    · rw [List.dropWhile_cons_of_pos ha] at h; exact ih h
    · rw [List.dropWhile_cons_of_neg ha] at h
      cases h; simpa using ha

theorem enumFromMem (l : List Row) : ∀ (i s : Nat) (x : Row), l[i]? = some x →
    (s + i, x) ∈ enumFrom s l := by
  induction l with
  | nil => intro i s x h; simp at h
  | cons r rest ih =>
    intro i s x h
    cases i with
    | zero => simp at h; simp [enumFrom, h]
    | succ m =>
      rw [List.getElem?_cons_succ] at h
      have := ih m (s + 1) x h
      have harith : s + (m + 1) = (s + 1) + m := by omega
      rw [harith]
      exact List.mem_cons_of_mem _ this

theorem enumFromMemSnd (l : List Row) : ∀ (s : Nat) (p : Nat × Row),
    p ∈ enumFrom s l → p.2 ∈ l := by
  induction l with
  | nil => intro s p h; simp [enumFrom] at h
  | cons r rest ih =>
    intro s p h
    rw [enumFrom] at h
    rcases List.mem_cons.mp h with h1 | h1
    · subst h1; simp
    · exact List.mem_cons_of_mem _ (ih (s + 1) p h1)

/-! ## Retrying-fetcher lemmas -/

theorem dwr_allFail (aspec : Nat → AttemptSpec) (h : ∀ a, (aspec a).isOk = false) :
    ∀ (fuel attempt backoff : Nat) (file : Option String),
      (dwrGo aspec attempt backoff file fuel).ok = false ∧
      (dwrGo aspec attempt backoff file fuel).numAttempts = fuel ∧
      (dwrGo aspec attempt backoff file fuel).timeouts = List.replicate fuel TIMEOUT ∧
      (dwrGo aspec attempt backoff file fuel).sleeps = sleepsOf backoff fuel ∧
      (dwrGo aspec attempt backoff file fuel).terminalErrors = 1 := by
  intro fuel
  induction fuel with
  | zero => intro attempt backoff file; simp [dwrGo, sleepsOf]
  | succ n ih =>
    intro attempt backoff file
    have ha := h attempt
    cases haa : aspec attempt with
    | ok c => rw [haa] at ha; simp [AttemptSpec.isOk] at ha
    | timeout =>
      cases n with
      | zero => rw [dwrGo, haa]; simp [sleepsOf, List.replicate]
      | succ m =>
        obtain ⟨h1, h2, h3, h4, h5⟩ := ih (attempt + 1) (backoff * 2) file
        rw [dwrGo, haa]
        simp [h1, h2, h3, h4, h5, sleepsOf, List.replicate_succ]
    | failNet =>
      cases n with
      | zero => rw [dwrGo, haa]; simp [sleepsOf, List.replicate]
      | succ m =>
        obtain ⟨h1, h2, h3, h4, h5⟩ := ih (attempt + 1) (backoff * 2) file
        rw [dwrGo, haa]
        simp [h1, h2, h3, h4, h5, sleepsOf, List.replicate_succ]
    | failWrite w =>
      cases n with
      | zero => rw [dwrGo, haa]; simp [sleepsOf, List.replicate]
      | succ m =>
        obtain ⟨h1, h2, h3, h4, h5⟩ := ih (attempt + 1) (backoff * 2) (some w)
        rw [dwrGo, haa]
        simp [h1, h2, h3, h4, h5, sleepsOf, List.replicate_succ]

theorem dwr_file_mono (aspec : Nat → AttemptSpec) :
    ∀ (fuel attempt backoff : Nat) (file : Option String), file.isSome = true →
      (dwrGo aspec attempt backoff file fuel).file.isSome = true := by
  intro fuel
  induction fuel with
  | zero => intro attempt backoff file hf; simpa [dwrGo] using hf
  | succ n ih =>
    intro attempt backoff file hf
    cases haa : aspec attempt with
    | ok c => rw [dwrGo, haa]; simp
    | timeout =>
      cases n with
      | zero => rw [dwrGo, haa]; simpa using hf
      | succ m =>
        rw [dwrGo, haa]
        simpa using ih (attempt + 1) (backoff * 2) file hf
    | failNet =>
      cases n with
      | zero => rw [dwrGo, haa]; simpa using hf
      | succ m =>
        rw [dwrGo, haa]
        simpa using ih (attempt + 1) (backoff * 2) file hf
    | failWrite w =>
      cases n with
      | zero => rw [dwrGo, haa]; simp
      | succ m =>
        rw [dwrGo, haa]
        simpa using ih (attempt + 1) (backoff * 2) (some w) (by simp)

theorem dwr_file_write (aspec : Nat → AttemptSpec) (w : String) :
    ∀ (fuel attempt backoff : Nat) (file : Option String) (i : Nat),
      attempt ≤ i → i < attempt + fuel → aspec i = AttemptSpec.failWrite w →
      (dwrGo aspec attempt backoff file fuel).file.isSome = true := by
  intro fuel
  induction fuel with
  | zero => intro attempt backoff file i h1 h2 _; omega
  | succ n ih =>
    intro attempt backoff file i h1 h2 hi
    by_cases he : i = attempt
    · subst he
      cases n with
      | zero => rw [dwrGo, hi]; simp
      | succ m =>
        rw [dwrGo, hi]
        simpa using dwr_file_mono aspec (Nat.succ m) (i + 1) (backoff * 2) (some w) (by simp)
    · have hlt : attempt + 1 ≤ i := by omega
      have hne : i < (attempt + 1) + n := by omega
      cases haa : aspec attempt with
      | ok c => rw [dwrGo, haa]; simp
      | timeout =>
        cases n with
        | zero => omega
        | succ m =>
          rw [dwrGo, haa]
          simpa using ih (attempt + 1) (backoff * 2) file i hlt hne hi
      | failNet =>
        cases n with
        | zero => omega
        | succ m =>
          rw [dwrGo, haa]
          simpa using ih (attempt + 1) (backoff * 2) file i hlt hne hi
      | failWrite v =>
        cases n with
        | zero => omega
        | succ m =>
          rw [dwrGo, haa]
          simpa using ih (attempt + 1) (backoff * 2) (some v) i hlt hne hi

/-! ## Filesystem and orchestrator lemmas -/

theorem fsGet_fsSet_ne (m n x : String) (h : m ≠ n) :
    ∀ fs : List (String × String), fsGet (fsSet fs m x) n = fsGet fs n := by
  intro fs
  induction fs with
  | nil => simp [fsGet, fsSet, h]
  | cons p rest ih =>
    obtain ⟨k, v⟩ := p
    by_cases hk : k = m
    · subst hk
      rw [fsSet]
      simp only [beq_self_eq_true, if_true]
      rw [fsGet, fsGet]
      have : (k == n) = false := by simpa using h
      simp [this]
    · rw [fsSet]
      have hkm : (k == m) = false := by simpa using hk
      simp only [hkm, Bool.false_eq_true, if_false]
      rw [fsGet, fsGet]
      by_cases hkn : k = n
      · subst hkn; simp
      · have : (k == n) = false := by simpa using hkn
        simp [this, ih]

theorem processRecord_fsGet (fspec : String → Nat → AttemptSpec) (st : RunState)
    (row : Row) (filename : String) (n : String) (c : String)
    (hn : fsGet st.fs n = some c) (hfree : fsGet st.fs filename = none) :
    fsGet (processRecord fspec st row filename).fs n = some c := by
  have hne : filename ≠ n := by
    intro e; rw [e, hn] at hfree; cases hfree
  rw [processRecord]
  cases hf : (download_with_retries (fspec (imgStr row)) (fsGet st.fs filename)).file with
  | none =>
    by_cases hok : (download_with_retries (fspec (imgStr row)) (fsGet st.fs filename)).ok = true
    · simp [hf, hok, hn]
    · simp [hf, hok, hn]
  | some c1 =>
    by_cases hok : (download_with_retries (fspec (imgStr row)) (fsGet st.fs filename)).ok = true
    · simp [hf, hok, fsGet_fsSet_ne filename n c1 hne, hn]
    · simp [hf, hok, fsGet_fsSet_ne filename n c1 hne, hn]

theorem mainLoop_fs_preserve (fspec : String → Nat → AttemptSpec) :
    ∀ (l : List (Nat × Row)) (st : RunState) (n c : String),
      fsGet st.fs n = some c → fsGet (mainLoop fspec l st).fs n = some c := by
  intro l
  induction l with
  | nil => intro st n c hn; simpa [mainLoop] using hn
  | cons p rest ih =>
    intro st n c hn
    obtain ⟨idx, row⟩ := p
    cases hg : generate_filename row idx with
    | error e => rw [mainLoop, hg]; simpa using hn
    | ok filename =>
      cases hex : fsGet st.fs filename with
      | some c1 =>
        rw [mainLoop, hg]
        simp only [hex, Option.isSome_some, if_true]
        exact ih st n c hn
      | none =>
        rw [mainLoop, hg]
        simp only [hex, Option.isSome_none, Bool.false_eq_true, if_false]
        exact ih _ n c (processRecord_fsGet fspec st row filename n c hn hex)

theorem mainLoop_skipStep (fspec : String → Nat → AttemptSpec) (idx : Nat) (row : Row)
    (rest : List (Nat × Row)) (st : RunState) (fname : String)
    (h1 : generate_filename row idx = Except.ok fname)
    (h2 : (fsGet st.fs fname).isSome = true) :
    mainLoop fspec ((idx, row) :: rest) st = mainLoop fspec rest st := by
  rw [mainLoop, h1]
  simp [h2]

theorem processRecord_fail (fspec : String → Nat → AttemptSpec) (st : RunState)
    (row : Row) (filename : String)
    (h : ∀ a, (fspec (imgStr row) a).isOk = false) :
    (processRecord fspec st row filename).success = st.success ∧
    (processRecord fspec st row filename).error = st.error + 1 ∧
    (processRecord fspec st row filename).aborted = st.aborted := by
  obtain ⟨hok, -, -, -, -⟩ :=
    dwr_allFail (fspec (imgStr row)) h RETRY_LIMIT 1 INITIAL_BACKOFF (fsGet st.fs filename)
  rw [processRecord]
  simp [download_with_retries, hok]

/-! ## Correlator lemmas -/

theorem subset_img (frames : List Frame) (failed : List String) (p : Nat × Row)
    (h : p ∈ subsetOf frames failed) :
    ∃ u, p.2.img = some (Value.str u) ∧ failed.contains u = true := by
  have hm := (List.mem_filter.mp h).2
  cases hi : p.2.img with
  | none => rw [rowMatches, hi] at hm; cases hm
  | some v =>
    cases v with
    | nan => rw [rowMatches, hi] at hm; cases hm
    | str u => rw [rowMatches, hi] at hm; exact ⟨u, rfl, hm⟩

theorem subset_row_mem (frames : List Frame) (failed : List String) (p : Nat × Row)
    (h : p ∈ subsetOf frames failed) : p.2 ∈ concatFrames frames :=
  enumFromMemSnd (concatFrames frames) 0 p (List.mem_filter.mp h).1

theorem concat_no_sci (frames : List Frame) (h : frames.any (fun f => f.hasSci) = false) :
    ∀ row ∈ concatFrames frames, row.sci = none := by
  intro row hr
  rw [concatFrames] at hr
  simp only [List.mem_flatten, List.mem_map] at hr
  obtain ⟨l, ⟨f, hf, hl⟩, hrl⟩ := hr
  subst hl
  simp only [List.mem_map] at hrl
  obtain ⟨t, -, ht⟩ := hrl
  subst ht
  have hfs : f.hasSci = false := by
    rw [List.any_eq_false] at h
    simpa using h f hf
  simp [concatCell, hfs, h]

/-! ## Extractor lemmas -/

theorem tryExt_none (l : List Char) (h : l.head? ≠ some '.') : tryExt l = none := by
  cases l with
  | nil => rfl
  | cons c rest =>
    have hc : c ≠ '.' := by intro e; exact h (by simp [e])
    have hb : (c == '.') = false := by simpa using hc
    simp [tryExt, hb]

theorem findTail_skip (l : List Char) (m : Nat) :
    ∀ n, m ≤ n → (∀ j, m < j → j ≤ n → tryExt (l.drop j) = none) →
      findTail l n = findTail l m := by
  intro n
  induction n with
  | zero =>
    intro h _
    have hm : m = 0 := by omega
    rw [hm]
  | succ k ih =>
    intro hmn hnone
    by_cases he : m = k + 1
    · rw [he]
    · have hmk : m ≤ k := by omega
      have h1 : tryExt (l.drop (k + 1)) = none := hnone (k + 1) (by omega) (by omega)
      rw [findTail]
      simp only [h1]
      exact ih hmk (fun j hj1 hj2 => hnone j hj1 (by omega))

theorem matchAt_none_head (c : Char) (l : List Char) (h : c ≠ 'h') :
    matchAt (c :: l) = none := by
  have hb : ('h' == c) = false := by simpa using (Ne.symm h)
  have h1 : listStartsWith httpsScheme (c :: l) = false := by
    simp [httpsScheme, listStartsWith, hb]
  have h2 : listStartsWith httpScheme (c :: l) = false := by
    simp [httpScheme, listStartsWith, hb]
  simp [matchAt, h1, h2]

theorem scanAux_walk : ∀ (pre : List Char), 'h' ∉ pre →
    ∀ (fuel : Nat) (tail : List Char),
      scanAux (pre.length + fuel) (pre ++ tail) = scanAux fuel tail := by
  intro pre
  induction pre with
  | nil => intro _ fuel tail; simp
  | cons c cs ih =>
    intro h fuel tail
    have hc : c ≠ 'h' := by intro e; exact h (by simp [e])
    have hm : matchAt (c :: (cs ++ tail)) = none := matchAt_none_head c (cs ++ tail) hc
    have hlen : (c :: cs).length + fuel = (cs.length + fuel) + 1 := by simp; omega
    rw [List.cons_append, hlen]
    simp only [scanAux, hm]
    exact ih (fun hh => h (List.mem_cons_of_mem c hh)) fuel tail

theorem extAll (ext : List Char) (hext : ext = extJpeg ∨ ext = extJpg ∨ ext = extPng) :
    (∀ c ∈ ext, notSpace c = true) ∧ '.' ∉ ext := by
  rcases hext with h | h | h <;> subst h <;> exact ⟨by decide, by decide⟩

theorem mem_scanAux_head (fuel : Nat) (l : List Char) (n : Nat)
    (hm : matchAt l = some n) (hl : l ≠ []) :
    String.mk (l.take n) ∈ scanAux (fuel + 1) l := by
  cases l with
  | nil => exact absurd rfl hl
  | cons c rest =>
    simp only [scanAux, hm]
    exact List.mem_cons_self _ _

theorem insertAll_mem_left (u : String) (us : List String) :
    ∀ acc, u ∈ acc → u ∈ insertAll acc us := by
  induction us with
  | nil => intro acc h; simpa [insertAll] using h
  | cons v vs ih =>
    intro acc h
    have h2 : u ∈ (if v ∈ acc then acc else acc ++ [v]) := by
      by_cases hv : v ∈ acc
      · simpa [hv] using h
      · simp only [hv, if_false]
        exact List.mem_append_left _ h
    simpa [insertAll, List.foldl_cons] using ih _ h2

theorem insertAll_mem_right (u : String) : ∀ (us : List String) (acc : List String),
    u ∈ us → u ∈ insertAll acc us := by
  intro us
  induction us with
  | nil => intro acc h; simp at h
  | cons v vs ih =>
    intro acc h
    rcases List.mem_cons.mp h with h1 | h1
    · subst h1
      have h2 : u ∈ (if u ∈ acc then acc else acc ++ [u]) := by
        by_cases hv : u ∈ acc
        · simp [hv]
        · simp [hv]
      simpa [insertAll, List.foldl_cons] using insertAll_mem_left u vs _ h2
    · simpa [insertAll, List.foldl_cons] using ih _ h1

theorem extract_foldl_mem_left (u : String) : ∀ (lines acc : List String),
    u ∈ acc → u ∈ lines.foldl (fun a line => insertAll a (findall line)) acc := by
  intro lines
  induction lines with
  | nil => intro acc h; simpa using h
  | cons l ls ih =>
    intro acc h
    rw [List.foldl_cons]
    exact ih _ (insertAll_mem_left u (findall l) acc h)

theorem extract_urls_mem (u line : String) (lines : List String)
    (hl : line ∈ lines) (hu : u ∈ findall line) : u ∈ extract_urls lines := by
  have key : ∀ (ls acc : List String), line ∈ ls →
      u ∈ ls.foldl (fun a l2 => insertAll a (findall l2)) acc := by
    intro ls
    induction ls with
    | nil => intro acc h; simp at h
    | cons l rest ih =>
      intro acc h
      rw [List.foldl_cons]
      rcases List.mem_cons.mp h with h1 | h1
      · subst h1
        exact extract_foldl_mem_left u rest _ (insertAll_mem_right u (findall line) acc hu)
      · exact ih _ h1
  simpa [extract_urls] using key lines [] hl

theorem matchTail_url (mid ext trail : List Char)
    (hmid : mid ≠ []) (hms : ∀ c ∈ mid, notSpace c = true)
    (hext : ext = extJpeg ∨ ext = extJpg ∨ ext = extPng)
    (htr : '.' ∉ trail.takeWhile notSpace) :
    matchTail (mid ++ '.' :: (ext ++ trail)) = some (mid.length + (ext.length + 1)) := by
  have hA : (mid ++ '.' :: (ext ++ trail)).takeWhile notSpace
      = mid ++ '.' :: (ext ++ trail.takeWhile notSpace) := by
    rw [takeWhileAppend notSpace mid _ hms]
    congr 1
    rw [List.takeWhile_cons_of_pos (by decide : notSpace '.' = true)]
    congr 1
    rw [takeWhileAppend notSpace ext trail (extAll ext hext).1]
  have hlen2 : (mid ++ '.' :: (ext ++ trail.takeWhile notSpace)).length
      = mid.length + (1 + (ext.length + (trail.takeWhile notSpace).length)) := by
    simp [List.length_append]
    omega
  have hskip : ∀ j, mid.length < j →
      j ≤ mid.length + (1 + (ext.length + (trail.takeWhile notSpace).length)) →
      tryExt ((mid ++ '.' :: (ext ++ trail)).drop j) = none := by
    intro j hj1 hj2
    obtain ⟨i2, rfl⟩ : ∃ i2, j = mid.length + (i2 + 1) := ⟨j - mid.length - 1, by omega⟩
    apply tryExt_none
    rw [headDrop, getAppendLen, List.getElem?_cons_succ]
    by_cases hlt : i2 < ext.length
    · rw [getAppendLt ext trail i2 hlt]
      intro he
      exact (extAll ext hext).2 (List.getElem?_mem he)
    · obtain ⟨k, rfl⟩ : ∃ k, i2 = ext.length + k := ⟨i2 - ext.length, by omega⟩
      rw [getAppendLen]
      have hkb : k ≤ (trail.takeWhile notSpace).length := by omega
      have htw : trail = trail.takeWhile notSpace ++ trail.dropWhile notSpace :=
        (List.takeWhile_append_dropWhile notSpace trail).symm
      by_cases hk2 : k < (trail.takeWhile notSpace).length
      · rw [htw, getAppendLt _ _ k hk2]
        intro he
        exact htr (List.getElem?_mem he)
      · have hke : k = (trail.takeWhile notSpace).length := by omega
        rw [htw, hke]
        have hg0 : (trail.takeWhile notSpace ++ trail.dropWhile notSpace)[(trail.takeWhile notSpace).length]?
            = (trail.dropWhile notSpace)[0]? := by
          simpa using getAppendLen (trail.takeWhile notSpace) (trail.dropWhile notSpace) 0
        rw [hg0]
        cases hd : trail.dropWhile notSpace with
        | nil => simp
        | cons d ds =>
          have hds : notSpace d = false := dropWhileHead notSpace trail d ds hd
          simp only [List.getElem?_cons_zero]
          intro he
          have hde : d = '.' := by simpa using he
          rw [hde] at hds
          exact absurd hds (by decide)
  rw [matchTail, hA, hlen2,
    findTail_skip (mid ++ '.' :: (ext ++ trail)) mid.length
      (mid.length + (1 + (ext.length + (trail.takeWhile notSpace).length)))
      (by omega) hskip]
  cases hmids : mid with
  | nil => exact absurd hmids hmid
  | cons m0 mid' =>
    have hlen3 : (m0 :: mid').length = mid'.length + 1 := by simp
    have hdrop : ((m0 :: mid') ++ '.' :: (ext ++ trail)).drop (mid'.length + 1)
        = '.' :: (ext ++ trail) := by
      have h0 := dropAppendLen (m0 :: mid') ('.' :: (ext ++ trail)) 0
      simp only [List.length_cons, Nat.add_zero, List.drop_zero] at h0
      exact h0
    rw [hlen3, findTail]
    simp only [hdrop]
    rcases hext with h | h | h <;> subst h
    · simp [tryExt, extJpeg, listStartsWith]
    · simp [tryExt, extJpeg, extJpg, listStartsWith]
    · simp [tryExt, extJpeg, extJpg, extPng, listStartsWith]

theorem matchAt_url (scheme mid ext trail : List Char)
    (hs : scheme = httpsScheme ∨ scheme = httpScheme)
    (hmid : mid ≠ []) (hms : ∀ c ∈ mid, notSpace c = true)
    (hext : ext = extJpeg ∨ ext = extJpg ∨ ext = extPng)
    (htr : '.' ∉ trail.takeWhile notSpace) :
    matchAt (scheme ++ (mid ++ '.' :: (ext ++ trail)))
      = some (scheme.length + (mid.length + (ext.length + 1))) := by
  have hmt := matchTail_url mid ext trail hmid hms hext htr
  rcases hs with h | h <;> subst h
  · have hd8 : (httpsScheme ++ (mid ++ '.' :: (ext ++ trail))).drop 8
        = mid ++ '.' :: (ext ++ trail) := by
      simp [httpsScheme]
    rw [matchAt, if_pos (by simpa using listStartsWith_append httpsScheme _), hd8, hmt]
    simp [httpsScheme]
    omega
  · have hns : listStartsWith httpsScheme (httpScheme ++ (mid ++ '.' :: (ext ++ trail)))
        = false := by
      simp [httpsScheme, httpScheme, listStartsWith]
    have hd7 : (httpScheme ++ (mid ++ '.' :: (ext ++ trail))).drop 7
        = mid ++ '.' :: (ext ++ trail) := by
      simp [httpScheme]
    rw [matchAt, if_neg (by simp [hns]),
      if_pos (by simpa using listStartsWith_append httpScheme _), hd7, hmt]
    simp [httpScheme]
    omega

theorem findall_url (pre scheme mid ext trail : List Char)
    (hpre : 'h' ∉ pre)
    (hs : scheme = httpsScheme ∨ scheme = httpScheme)
    (hmid : mid ≠ []) (hms : ∀ c ∈ mid, notSpace c = true)
    (hext : ext = extJpeg ∨ ext = extJpg ∨ ext = extPng)
    (htr : '.' ∉ trail.takeWhile notSpace) :
    String.mk (scheme ++ (mid ++ '.' :: ext)) ∈
      findall (String.mk (pre ++ (scheme ++ (mid ++ '.' :: (ext ++ trail))))) := by
  have hma := matchAt_url scheme mid ext trail hs hmid hms hext htr
  have hne : scheme ++ (mid ++ '.' :: (ext ++ trail)) ≠ [] := by
    rcases hs with h | h <;> subst h <;> simp [httpsScheme, httpScheme]
  have htake : (scheme ++ (mid ++ '.' :: (ext ++ trail))).take
      (scheme.length + (mid.length + (ext.length + 1))) = scheme ++ (mid ++ '.' :: ext) := by
    rw [takeAppendLen]
    congr 1
    rw [takeAppendLen]
    congr 1
    rw [List.take_succ_cons]
    congr 1
    have h0 := takeAppendLen ext trail 0
    simp only [Nat.add_zero, List.take_zero, List.append_nil] at h0
    exact h0
  have hmem := mem_scanAux_head (scheme ++ (mid ++ '.' :: (ext ++ trail))).length
    (scheme ++ (mid ++ '.' :: (ext ++ trail)))
    (scheme.length + (mid.length + (ext.length + 1))) hma hne
  rw [htake] at hmem
  have hwalk := scanAux_walk pre hpre ((scheme ++ (mid ++ '.' :: (ext ++ trail))).length + 1)
    (scheme ++ (mid ++ '.' :: (ext ++ trail)))
  have hlen : (pre ++ (scheme ++ (mid ++ '.' :: (ext ++ trail)))).length + 1
      = pre.length + ((scheme ++ (mid ++ '.' :: (ext ++ trail))).length + 1) := by
    simp [List.length_append]
    omega
  rw [findall]
  show String.mk (scheme ++ (mid ++ '.' :: ext)) ∈
    scanAux ((pre ++ (scheme ++ (mid ++ '.' :: (ext ++ trail)))).length + 1)
      (pre ++ (scheme ++ (mid ++ '.' :: (ext ++ trail))))
  rw [hlen, hwalk]
  exact hmem

/-! ## Orchestrator fetch-trace lemmas -/

theorem processRecord_fetched (fspec : String → Nat → AttemptSpec) (st : RunState)
    (row : Row) (fname : String) :
    (processRecord fspec st row fname).fetched = st.fetched ++ [imgStr row] := by
  rw [processRecord]
  by_cases hok : (download_with_retries (fspec (imgStr row)) (fsGet st.fs fname)).ok = true
  · simp [hok]
  · simp [hok]

theorem mainLoop_fetched (fspec : String → Nat → AttemptSpec) :
    ∀ (l : List (Nat × Row)) (st : RunState) (u : String),
      u ∈ (mainLoop fspec l st).fetched →
      u ∈ st.fetched ∨ ∃ p ∈ l, imgStr p.2 = u := by
  intro l
  induction l with
  | nil => intro st u h; left; simpa [mainLoop] using h
  | cons q rest ih =>
    intro st u h
    obtain ⟨idx, row⟩ := q
    cases hg : generate_filename row idx with
    | error e =>
      rw [mainLoop, hg] at h
      left; simpa using h
    | ok fname =>
      cases hex : fsGet st.fs fname with
      | some c =>
        rw [mainLoop, hg] at h
        simp only [hex, Option.isSome_some, if_true] at h
        rcases ih st u h with h1 | ⟨p, hp, hpu⟩
        · left; exact h1
        · right; exact ⟨p, List.mem_cons_of_mem _ hp, hpu⟩
      | none =>
        rw [mainLoop, hg] at h
        simp only [hex, Option.isSome_none, Bool.false_eq_true, if_false] at h
        rcases ih _ u h with h1 | ⟨p, hp, hpu⟩
        · rw [processRecord_fetched] at h1
          rcases List.mem_append.mp h1 with h2 | h2
          · left; exact h2
          · right
            refine ⟨(idx, row), List.mem_cons_self _ _, ?_⟩
            have : u = imgStr row := by simpa using h2
            exact this.symm
        · right; exact ⟨p, List.mem_cons_of_mem _ hp, hpu⟩

/-! # Claim theorems -/

/-- C4: if the concatenated source sequence has the row
(scientific_name="Panthera leo", image_url="https://x.org/a/b.jpg",
url="https://x.org/obs/123") at position 7 and that image URL is in the
failed set, the correlator includes the row, and the filename generated for
it is exactly "panthera_leo_123_7.jpg". -/
theorem C4_position7_filename (frames : List Frame) (failed : List String)
    (h7 : (concatFrames frames)[7]? = some (Row.mk (some (Value.str "Panthera leo"))
      (some (Value.str "https://x.org/a/b.jpg")) (some (Value.str "https://x.org/obs/123"))))
    (hf : failed.contains "https://x.org/a/b.jpg" = true) :
    (7, Row.mk (some (Value.str "Panthera leo")) (some (Value.str "https://x.org/a/b.jpg"))
      (some (Value.str "https://x.org/obs/123"))) ∈ subsetOf frames failed ∧
    generate_filename (Row.mk (some (Value.str "Panthera leo"))
      (some (Value.str "https://x.org/a/b.jpg")) (some (Value.str "https://x.org/obs/123"))) 7
      = Except.ok "panthera_leo_123_7.jpg" := by
  constructor
  · apply List.mem_filter.mpr
    constructor
    · have h := enumFromMem (concatFrames frames) 7 0 _ h7
      simpa using h
    · simp only [rowMatches]
      exact hf
  · rfl

/-- Witness for C4 at a concrete source: one frame holding all three columns,
seven placeholder rows, then the Panthera leo row at position 7. -/
theorem C4_position7_filename_witness :
    (7, Row.mk (some (Value.str "Panthera leo")) (some (Value.str "https://x.org/a/b.jpg"))
      (some (Value.str "https://x.org/obs/123"))) ∈ subsetOf
        [Frame.mk true true true
          [(Value.nan, Value.nan, Value.nan), (Value.nan, Value.nan, Value.nan),
           (Value.nan, Value.nan, Value.nan), (Value.nan, Value.nan, Value.nan),
           (Value.nan, Value.nan, Value.nan), (Value.nan, Value.nan, Value.nan),
           (Value.nan, Value.nan, Value.nan),
           (Value.str "Panthera leo", Value.str "https://x.org/a/b.jpg",
            Value.str "https://x.org/obs/123")]] ["https://x.org/a/b.jpg"] ∧
    generate_filename (Row.mk (some (Value.str "Panthera leo"))
      (some (Value.str "https://x.org/a/b.jpg")) (some (Value.str "https://x.org/obs/123"))) 7
      = Except.ok "panthera_leo_123_7.jpg" :=
  C4_position7_filename
    [Frame.mk true true true
      [(Value.nan, Value.nan, Value.nan), (Value.nan, Value.nan, Value.nan),
       (Value.nan, Value.nan, Value.nan), (Value.nan, Value.nan, Value.nan),
       (Value.nan, Value.nan, Value.nan), (Value.nan, Value.nan, Value.nan),
       (Value.nan, Value.nan, Value.nan),
       (Value.str "Panthera leo", Value.str "https://x.org/a/b.jpg",
        Value.str "https://x.org/obs/123")]] ["https://x.org/a/b.jpg"] (by rfl) (by rfl)

/-- C5: when every one of the 5 attempts fails, download_with_retries returns
failure, logs exactly one terminal error (the model is a total function, so
no exception escapes), and the orchestrator adds 1 to the failure tally and 0
to the success tally for that record. -/
theorem C5_exhausted_retries (aspec : Nat → AttemptSpec) (file : Option String)
    (fspec : String → Nat → AttemptSpec) (st : RunState) (idx : Nat) (row : Row)
    (fname : String)
    (hall : ∀ a, (aspec a).isOk = false)
    (hg : generate_filename row idx = Except.ok fname)
    (hfree : fsGet st.fs fname = none)
    (hfall : ∀ a, (fspec (imgStr row) a).isOk = false) :
    (download_with_retries aspec file).ok = false ∧
    (download_with_retries aspec file).terminalErrors = 1 ∧
    (mainLoop fspec [(idx, row)] st).success = st.success ∧
    (mainLoop fspec [(idx, row)] st).error = st.error + 1 := by
  obtain ⟨h1, -, -, -, h5⟩ := dwr_allFail aspec hall RETRY_LIMIT 1 INITIAL_BACKOFF file
  have hstep : mainLoop fspec [(idx, row)] st = processRecord fspec st row fname := by
    rw [mainLoop, hg]
    simp [hfree, mainLoop]
  obtain ⟨hs1, hs2, -⟩ := processRecord_fail fspec st row fname hfall
  exact ⟨h1, h5, by rw [hstep]; exact hs1, by rw [hstep]; exact hs2⟩

/-- Witness for C5: every attempt times out; the single correlated record
ends with success tally 0 and failure tally 1. -/
theorem C5_exhausted_retries_witness :
    (download_with_retries (fun _ => AttemptSpec.timeout) none).ok = false ∧
    (download_with_retries (fun _ => AttemptSpec.timeout) none).terminalErrors = 1 ∧
    (mainLoop (fun _ _ => AttemptSpec.failNet)
      [(0, Row.mk (some (Value.str "a")) (some (Value.str "u")) none)]
      (RunState.mk 0 0 [] [] none)).success = 0 ∧
    (mainLoop (fun _ _ => AttemptSpec.failNet)
      [(0, Row.mk (some (Value.str "a")) (some (Value.str "u")) none)]
      (RunState.mk 0 0 [] [] none)).error = 1 := by
  have h := C5_exhausted_retries (fun _ => AttemptSpec.timeout) none
    (fun _ _ => AttemptSpec.failNet) (RunState.mk 0 0 [] [] none) 0
    (Row.mk (some (Value.str "a")) (some (Value.str "u")) none) "a_0.jpg"
    (fun _ => rfl) (by rfl) (by rfl) (fun _ => rfl)
  simpa using h

/-- C6: a fetch on which every attempt fails makes exactly 5 attempts
(RETRY_LIMIT), each request carrying the 10-unit timeout (a timed-out
attempt is one of the failing cases), with sleeps of exactly 3, 6, 12 and 24
units between consecutive attempts and none after the last. -/
theorem C6_backoff_schedule (aspec : Nat → AttemptSpec) (file : Option String)
    (hall : ∀ a, (aspec a).isOk = false) :
    (download_with_retries aspec file).numAttempts = RETRY_LIMIT ∧
    (download_with_retries aspec file).numAttempts = 5 ∧
    (download_with_retries aspec file).timeouts = [10, 10, 10, 10, 10] ∧
    (download_with_retries aspec file).sleeps = [3, 6, 12, 24] := by
  obtain ⟨-, h2, h3, h4, -⟩ := dwr_allFail aspec hall RETRY_LIMIT 1 INITIAL_BACKOFF file
  have h2a : (download_with_retries aspec file).numAttempts = RETRY_LIMIT := h2
  have h3a : (download_with_retries aspec file).timeouts
      = List.replicate RETRY_LIMIT TIMEOUT := h3
  have h4a : (download_with_retries aspec file).sleeps
      = sleepsOf INITIAL_BACKOFF RETRY_LIMIT := h4
  exact ⟨h2a, by rw [h2a]; rfl, by rw [h3a]; rfl, by rw [h4a]; rfl⟩

/-- Witness for C6: every attempt is a timeout. -/
theorem C6_backoff_schedule_witness :
    (download_with_retries (fun _ => AttemptSpec.timeout) none).numAttempts = RETRY_LIMIT ∧
    (download_with_retries (fun _ => AttemptSpec.timeout) none).numAttempts = 5 ∧
    (download_with_retries (fun _ => AttemptSpec.timeout) none).timeouts = [10, 10, 10, 10, 10] ∧
    (download_with_retries (fun _ => AttemptSpec.timeout) none).sleeps = [3, 6, 12, 24] :=
  C6_backoff_schedule (fun _ => AttemptSpec.timeout) none (fun _ => rfl)

/-- C9: a correlated record whose target file already exists is skipped: the
run result is the same as if the record were absent (so no fetch happens and
the tallies are unchanged by it), and the existing file still holds its old
contents after the whole loop. -/
theorem C9_skip_existing (fspec : String → Nat → AttemptSpec) (idx : Nat) (row : Row)
    (rest : List (Nat × Row)) (st : RunState) (fname c : String)
    (hg : generate_filename row idx = Except.ok fname)
    (hex : fsGet st.fs fname = some c) :
    mainLoop fspec ((idx, row) :: rest) st = mainLoop fspec rest st ∧
    fsGet (mainLoop fspec ((idx, row) :: rest) st).fs fname = some c := by
  have hskip := mainLoop_skipStep fspec idx row rest st fname hg (by simp [hex])
  refine ⟨hskip, ?_⟩
  rw [hskip]
  exact mainLoop_fs_preserve fspec rest st fname c hex

/-- Witness for C9: the destination already holds "a_0.jpg" with body "IMG";
the record at index 0 is skipped and the file content survives. -/
theorem C9_skip_existing_witness :
    mainLoop (fun _ _ => AttemptSpec.ok "NEW")
      [(0, Row.mk (some (Value.str "a")) (some (Value.str "u")) none)]
      (RunState.mk 0 0 [] [("a_0.jpg", "IMG")] none) =
    mainLoop (fun _ _ => AttemptSpec.ok "NEW") [] (RunState.mk 0 0 [] [("a_0.jpg", "IMG")] none) ∧
    fsGet (mainLoop (fun _ _ => AttemptSpec.ok "NEW")
      [(0, Row.mk (some (Value.str "a")) (some (Value.str "u")) none)]
      (RunState.mk 0 0 [] [("a_0.jpg", "IMG")] none)).fs "a_0.jpg" = some "IMG" :=
  C9_skip_existing (fun _ _ => AttemptSpec.ok "NEW") 0
    (Row.mk (some (Value.str "a")) (some (Value.str "u")) none) []
    (RunState.mk 0 0 [] [("a_0.jpg", "IMG")] none) "a_0.jpg" "IMG" (by rfl) (by rfl)

/-- C10: download_with_retries never removes the destination file: if some
attempt opened the destination and wrote a partial body before failing and
all attempts fail, the call returns failure with the truncated file still on
disk; download.py's download_image instead removes the partial file on
error; and a later run whose destination already holds that filename skips
the record. -/
theorem C10_partial_file_persists (aspec : Nat → AttemptSpec) (file : Option String)
    (i : Nat) (w : String) (fspec : String → Nat → AttemptSpec) (idx : Nat) (row : Row)
    (rest : List (Nat × Row)) (st : RunState) (fname c : String)
    (hall : ∀ a, (aspec a).isOk = false)
    (hi1 : 1 ≤ i) (hi5 : i ≤ RETRY_LIMIT)
    (hw : aspec i = AttemptSpec.failWrite w)
    (hg : generate_filename row idx = Except.ok fname)
    (hex : fsGet st.fs fname = some c) :
    (download_with_retries aspec file).ok = false ∧
    (download_with_retries aspec file).file.isSome = true ∧
    (download_image (AttemptSpec.failWrite w) file).2 = none ∧
    mainLoop fspec ((idx, row) :: rest) st = mainLoop fspec rest st := by
  obtain ⟨hok, -, -, -, -⟩ := dwr_allFail aspec hall RETRY_LIMIT 1 INITIAL_BACKOFF file
  refine ⟨hok, ?_, rfl, mainLoop_skipStep fspec idx row rest st fname hg (by simp [hex])⟩
  have hlim : RETRY_LIMIT = 5 := rfl
  exact dwr_file_write aspec w RETRY_LIMIT 1 INITIAL_BACKOFF file i hi1 (by omega) hw

/-- Witness for C10: attempt 2 writes a partial body then fails, every
attempt fails; the partial file persists, download_image would have removed
it, and an existing file makes a later run skip. -/
theorem C10_partial_file_persists_witness :
    (download_with_retries
      (fun a => if a = 2 then AttemptSpec.failWrite "par" else AttemptSpec.timeout) none).ok
      = false ∧
    (download_with_retries
      (fun a => if a = 2 then AttemptSpec.failWrite "par" else AttemptSpec.timeout) none).file.isSome
      = true ∧
    (download_image (AttemptSpec.failWrite "par") none).2 = none ∧
    mainLoop (fun _ _ => AttemptSpec.ok "NEW")
      [(0, Row.mk (some (Value.str "a")) (some (Value.str "u")) none)]
      (RunState.mk 0 0 [] [("a_0.jpg", "par")] none) =
    mainLoop (fun _ _ => AttemptSpec.ok "NEW") [] (RunState.mk 0 0 [] [("a_0.jpg", "par")] none) :=
  C10_partial_file_persists
    (fun a => if a = 2 then AttemptSpec.failWrite "par" else AttemptSpec.timeout) none 2 "par"
    (fun _ _ => AttemptSpec.ok "NEW") 0
    (Row.mk (some (Value.str "a")) (some (Value.str "u")) none) []
    (RunState.mk 0 0 [] [("a_0.jpg", "par")] none) "a_0.jpg" "par"
    (fun a => by by_cases h : a = 2 <;> simp [h, AttemptSpec.isOk])
    (by decide) (by decide) (by rfl) (by rfl) (by rfl)

/-- C1 counterexample: a record whose scientific_name is missing (NaN) but
whose image_url is in the failed set is NOT excluded: the run fetches it
(under the token "unknown") and counts it as a success. -/
theorem C1_counterexample :
    (mainRun ["u"] [Frame.mk true true true [(Value.nan, Value.str "u", Value.str "z")]] []
      (fun _ _ => AttemptSpec.ok "B")).success = 1 ∧
    (mainRun ["u"] [Frame.mk true true true [(Value.nan, Value.str "u", Value.str "z")]] []
      (fun _ _ => AttemptSpec.ok "B")).fetched = ["u"] := by
  constructor
  · rfl
  · rfl

/-- C1 (amended): only a missing image_url excludes a record: every member of
the correlated subset has a present, string-valued image_url belonging to the
failed set, and every URL the orchestrator fetches belongs to the failed set;
a record lacking only scientific_name is still correlated and tallied. -/
theorem C1_missing_field_exclusion (frames : List Frame) (failed : List String)
    (fs0 : List (String × String)) (fspec : String → Nat → AttemptSpec) :
    (∀ p ∈ subsetOf frames failed,
      ∃ u, p.2.img = some (Value.str u) ∧ failed.contains u = true) ∧
    (∀ u ∈ (mainRun failed frames fs0 fspec).fetched, failed.contains u = true) := by
  constructor
  · intro p hp
    exact subset_img frames failed p hp
  · intro u hu
    rw [mainRun] at hu
    by_cases h1 : failed.isEmpty = true
    · simp [h1] at hu
    · by_cases h2 : (frames.any fun f => f.hasImg) = true
      · by_cases h3 : (subsetOf frames failed).isEmpty = true
        · simp [h1, h2, h3] at hu
        · simp only [h1, h2, h3, Bool.not_true, Bool.false_eq_true, if_false] at hu
          rcases mainLoop_fetched fspec (subsetOf frames failed)
              (RunState.mk 0 0 [] fs0 none) u hu with hA | ⟨p, hp, hpu⟩
          · simp at hA
          · obtain ⟨u2, himg, hc⟩ := subset_img frames failed p hp
            have he : imgStr p.2 = u2 := by rw [imgStr, himg]
            rw [← hpu, he]
            exact hc
      · have h2f : (frames.any fun f => f.hasImg) = false := by
          cases hx : frames.any fun f => f.hasImg
          · rfl
          · exact absurd hx h2
        simp [h1, h2f] at hu

/-- Witness for C1 (amended) at the counterexample's own input. -/
theorem C1_missing_field_exclusion_witness :
    (∀ p ∈ subsetOf [Frame.mk true true true [(Value.nan, Value.str "u", Value.str "z")]] ["u"],
      ∃ u, p.2.img = some (Value.str u) ∧ (["u"] : List String).contains u = true) ∧
    (∀ u ∈ (mainRun ["u"] [Frame.mk true true true [(Value.nan, Value.str "u", Value.str "z")]] []
      (fun _ _ => AttemptSpec.ok "B")).fetched, (["u"] : List String).contains u = true) :=
  C1_missing_field_exclusion [Frame.mk true true true [(Value.nan, Value.str "u", Value.str "z")]]
    ["u"] [] (fun _ _ => AttemptSpec.ok "B")

/-- C2 counterexample: a record whose url cell is NaN (missing value) yields
the fragment "_nan" — str(NaN) is "nan" — not the empty fragment, so the
filename is "a_nan_0.jpg" rather than "a_0.jpg"; and a record whose
scientific_name column is absent makes filename derivation raise KeyError,
so derivation is not raise-free for every record. -/
theorem C2_counterexample :
    generate_filename (Row.mk (some (Value.str "a")) (some (Value.str "u")) (some Value.nan)) 0
      = Except.ok "a_nan_0.jpg" ∧
    generate_filename (Row.mk (some (Value.str "a")) (some (Value.str "u")) (some Value.nan)) 0
      ≠ Except.ok "a_0.jpg" ∧
    generate_filename (Row.mk none (some (Value.str "u")) (some (Value.str "z"))) 0
      = Except.error "KeyError: scientific_name" := by
  refine ⟨rfl, ?_, rfl⟩
  intro h
  exact absurd (Except.ok.inj h) (by decide)

/-- C2 (amended): for a record whose scientific_name is present, filename
derivation never raises; an absent url column degrades to the empty fragment
giving "{token}_{index}.jpg", while a NaN url cell degrades to the fragment
"_nan" giving "{token}_nan_{index}.jpg". -/
theorem C2_url_degradation (row : Row) (idx : Nat) (v : Value)
    (hsci : row.sci = some v) :
    (∃ s, generate_filename row idx = Except.ok s) ∧
    (row.url = none →
      generate_filename row idx
        = Except.ok (clean_directory_name v ++ "_" ++ toString idx ++ ".jpg")) ∧
    (row.url = some Value.nan →
      generate_filename row idx
        = Except.ok (clean_directory_name v ++ "_nan" ++ "_" ++ toString idx ++ ".jpg")) := by
  obtain ⟨sci, img, url⟩ := row
  simp only at hsci
  subst hsci
  refine ⟨⟨_, rfl⟩, ?_, ?_⟩
  · intro hurl
    simp only at hurl
    subst hurl
    show Except.ok (clean_directory_name v ++ "" ++ "_" ++ toString idx ++ ".jpg")
      = Except.ok (clean_directory_name v ++ "_" ++ toString idx ++ ".jpg")
    rw [String.append_empty]
  · intro hurl
    simp only at hurl
    subst hurl
    rfl

/-- Witness for C2 (amended) at a concrete record with a NaN url. -/
theorem C2_url_degradation_witness :
    (∃ s, generate_filename
      (Row.mk (some (Value.str "a")) (some (Value.str "u")) (some Value.nan)) 0
      = Except.ok s) ∧
    ((Row.mk (some (Value.str "a")) (some (Value.str "u")) (some Value.nan)).url = none →
      generate_filename (Row.mk (some (Value.str "a")) (some (Value.str "u")) (some Value.nan)) 0
        = Except.ok (clean_directory_name (Value.str "a") ++ "_" ++ toString 0 ++ ".jpg")) ∧
    ((Row.mk (some (Value.str "a")) (some (Value.str "u")) (some Value.nan)).url
        = some Value.nan →
      generate_filename (Row.mk (some (Value.str "a")) (some (Value.str "u")) (some Value.nan)) 0
        = Except.ok (clean_directory_name (Value.str "a") ++ "_nan" ++ "_" ++ toString 0
            ++ ".jpg")) :=
  C2_url_degradation (Row.mk (some (Value.str "a")) (some (Value.str "u")) (some Value.nan)) 0
    (Value.str "a") rfl

/-- C3 counterexample: a source lacking the required url column does NOT
abort the run: with its image_url in the failed set the record is fetched
(network activity happens) and the run completes normally. -/
theorem C3_counterexample :
    (mainRun ["u"] [Frame.mk true true false [(Value.str "a", Value.str "u", Value.str "zz")]] []
      (fun _ _ => AttemptSpec.ok "B")).aborted = none ∧
    (mainRun ["u"] [Frame.mk true true false [(Value.str "a", Value.str "u", Value.str "zz")]] []
      (fun _ _ => AttemptSpec.ok "B")).fetched = ["u"] := by
  constructor
  · rfl
  · rfl

/-- C3 (amended): with a non-empty failed set, if every source lacks
image_url the run aborts with an uncaught KeyError before any fetch; if
every source lacks scientific_name no fetch ever happens (the first
correlated record's filename derivation raises KeyError before its
download); but a source lacking url does not abort the run. -/
theorem C3_missing_column (failed : List String) (frames : List Frame)
    (fs0 : List (String × String)) (fspec : String → Nat → AttemptSpec)
    (hne : failed.isEmpty = false) :
    ((frames.any fun f => f.hasImg) = false →
      (mainRun failed frames fs0 fspec).aborted = some "KeyError: image_url" ∧
      (mainRun failed frames fs0 fspec).fetched = []) ∧
    ((frames.any fun f => f.hasSci) = false →
      (mainRun failed frames fs0 fspec).fetched = []) := by
  constructor
  · intro himg
    rw [mainRun]
    simp [hne, himg]
  · intro hsci
    rw [mainRun]
    by_cases himg : (frames.any fun f => f.hasImg) = true
    · simp only [hne, Bool.false_eq_true, if_false, himg, Bool.not_true]
      cases hsub : subsetOf frames failed with
      | nil => simp
      | cons p rest =>
        have hpmem : p ∈ subsetOf frames failed := by rw [hsub]; exact List.mem_cons_self _ _
        have hrow : p.2.sci = none :=
          concat_no_sci frames hsci p.2 (subset_row_mem frames failed p hpmem)
        obtain ⟨pidx, prow⟩ := p
        simp only at hrow
        have hgen : generate_filename prow pidx = Except.error "KeyError: scientific_name" := by
          rw [generate_filename, hrow]
        simp only [List.isEmpty_cons, Bool.false_eq_true, if_false]
        rw [mainLoop, hgen]
    · have himgf : (frames.any fun f => f.hasImg) = false := by
        cases hx : frames.any fun f => f.hasImg
        · rfl
        · exact absurd hx himg
      simp [hne, himgf]

/-- Witness for C3 (amended): a single-row source lacking both
scientific_name and image_url. -/
theorem C3_missing_column_witness :
    (((([Frame.mk false false true [(Value.str "a", Value.str "u", Value.str "z")]] :
        List Frame).any fun f => f.hasImg) = false →
      (mainRun ["u"] [Frame.mk false false true [(Value.str "a", Value.str "u", Value.str "z")]]
        [] (fun _ _ => AttemptSpec.ok "B")).aborted = some "KeyError: image_url" ∧
      (mainRun ["u"] [Frame.mk false false true [(Value.str "a", Value.str "u", Value.str "z")]]
        [] (fun _ _ => AttemptSpec.ok "B")).fetched = []) ∧
    ((([Frame.mk false false true [(Value.str "a", Value.str "u", Value.str "z")]] :
        List Frame).any fun f => f.hasSci) = false →
      (mainRun ["u"] [Frame.mk false false true [(Value.str "a", Value.str "u", Value.str "z")]]
        [] (fun _ _ => AttemptSpec.ok "B")).fetched = [])) :=
  C3_missing_column ["u"] [Frame.mk false false true [(Value.str "a", Value.str "u", Value.str "z")]]
    [] (fun _ _ => AttemptSpec.ok "B") rfl

/-- C7 counterexample: the regex has no IGNORECASE flag, so a log line whose
only URL ends in the uppercase extension ".JPG" contributes nothing: the
extracted set is empty. -/
theorem C7_counterexample :
    extract_urls ["Error downloading https://x.org/a.JPG: timeout"] = [] := by
  rfl

/-- C7 (amended): extension matching is case-sensitive, lowercase only: for
every log line of the form pre ++ scheme ++ mid ++ "." ++ ext ++ post with an
http or https scheme, a non-empty whitespace-free mid, a LOWERCASE extension
jpg/jpeg/png, no "h" in pre (so no earlier match can start or overlap), and
no "." in the non-whitespace text that follows the extension (so the greedy
quantifier cannot extend the match), extract_urls includes that URL. -/
theorem C7_lowercase_extension (lines : List String) (pre scheme mid ext post : List Char)
    (hpre : 'h' ∉ pre)
    (hs : scheme = httpsScheme ∨ scheme = httpScheme)
    (hmid : mid ≠ []) (hms : ∀ c ∈ mid, notSpace c = true)
    (hext : ext = extJpeg ∨ ext = extJpg ∨ ext = extPng)
    (hpost : '.' ∉ post.takeWhile notSpace)
    (hline : String.mk (pre ++ (scheme ++ (mid ++ '.' :: (ext ++ post)))) ∈ lines) :
    String.mk (scheme ++ (mid ++ '.' :: ext)) ∈ extract_urls lines :=
  extract_urls_mem _ _ lines hline
    (findall_url pre scheme mid ext post hpre hs hmid hms hext hpost)

/-- Witness for C7 (amended): the canonical failing-download log line. -/
theorem C7_lowercase_extension_witness :
    ("https://x.org/a/b.jpg" : String) ∈
      extract_urls ["Error downloading https://x.org/a/b.jpg: timeout"] := by
  have h := C7_lowercase_extension ["Error downloading https://x.org/a/b.jpg: timeout"]
    ("Error downloading ".data) httpsScheme ("x.org/a/b".data) extJpg (": timeout".data)
    (by decide) (Or.inl rfl) (by decide) (by decide) (Or.inr (Or.inl rfl)) (by decide)
    (by left)
  exact h

/-- C8 counterexample: a line whose only URL carries a query string after the
extension still contributes an element: the regex backtracks and matches the
truncated prefix "https://x.org/a.jpg", so the extracted set is non-empty
(though the full URL with its query is indeed absent). -/
theorem C8_counterexample :
    ("https://x.org/a.jpg" : String) ∈ extract_urls ["https://x.org/a.jpg?size=large"] ∧
    ("https://x.org/a.jpg?size=large" : String) ∉ extract_urls ["https://x.org/a.jpg?size=large"] ∧
    extract_urls ["https://x.org/a.jpg?size=large"] ≠ [] := by
  refine ⟨?_, ?_, ?_⟩ <;> decide

/-- C8 (amended): for a log line whose URL has trailing query parameters
after the image extension (a "?" then a whitespace-free, dot-free query,
then whitespace or end of line), the full URL does not match, but extraction
still contributes the truncated URL ending at the extension. -/
theorem C8_query_string_truncated (lines : List String)
    (pre scheme mid ext qs post : List Char)
    (hpre : 'h' ∉ pre)
    (hs : scheme = httpsScheme ∨ scheme = httpScheme)
    (hmid : mid ≠ []) (hms : ∀ c ∈ mid, notSpace c = true)
    (hext : ext = extJpeg ∨ ext = extJpg ∨ ext = extPng)
    (hqs : ∀ c ∈ qs, notSpace c = true) (hqd : '.' ∉ qs)
    (hpost : post = [] ∨ ∃ d ds, post = d :: ds ∧ isSpace d = true)
    (hline : String.mk (pre ++ (scheme ++ (mid ++ '.' :: (ext ++ ('?' :: (qs ++ post))))))
      ∈ lines) :
    String.mk (scheme ++ (mid ++ '.' :: ext)) ∈ extract_urls lines := by
  have htr : '.' ∉ ('?' :: (qs ++ post)).takeWhile notSpace := by
    rw [List.takeWhile_cons_of_pos (by decide : notSpace '?' = true),
      takeWhileAppend notSpace qs post hqs]
    have hptw : post.takeWhile notSpace = [] := by
      rcases hpost with h | ⟨d, ds, hd, hsp⟩
      · rw [h]; rfl
      · rw [hd, List.takeWhile_cons_of_neg (by simp [notSpace, hsp])]
    rw [hptw]
    simp only [List.append_nil, List.mem_cons]
    rintro (h | h)
    · exact absurd h (by decide)
    · exact hqd h
  exact extract_urls_mem _ _ lines hline
    (findall_url pre scheme mid ext ('?' :: (qs ++ post)) hpre hs hmid hms hext htr)

/-- Witness for C8 (amended): the query-carrying URL from the
counterexample, extracted as its query-stripped prefix. -/
theorem C8_query_string_truncated_witness :
    ("https://x.org/a.jpg" : String) ∈ extract_urls ["https://x.org/a.jpg?size=large"] := by
  have h := C8_query_string_truncated ["https://x.org/a.jpg?size=large"] [] httpsScheme
    ("x.org/a".data) extJpg ("size=large".data) [] (by decide) (Or.inl rfl) (by decide)
    (by decide) (Or.inr (Or.inl rfl)) (by decide) (by decide) (Or.inl rfl) (by left)
  exact h
